import Mathlib

/-!
Verification of the core of `rtmigo/randomref` (src/main.cpp), a deterministic
reference-vector generator for pseudo-random number algorithms.

The C++ code is shallowly embedded: 32-bit unsigned values are natural numbers
reduced modulo `2 ^ 32`, 64-bit values modulo `2 ^ 64`.  Stateful generator
classes become explicit state-passing functions `state → output × state`.
The bounded sampler's rejection loop, which is unbounded in the worst case,
is modelled with explicit fuel and an `Option` result (`none` = fuel ran out
before a draw got accepted); the backing 32-bit generator is abstracted as a
stream `f : Nat → Nat` of raw draws (`f k` is the k-th output of
`nextRaw32()`, truncated to 32 bits as the `uint32_t` return type does).
-/

namespace Xorshift32

/-- Embedding of `Xorshift32::next` (src/main.cpp lines 271-278):
`x ^= x << 13; x ^= x >> 17; x ^= x << 5; return this->a = x;`
in 32-bit unsigned arithmetic.  Returns (output, new state); the source
returns the freshly assigned state, so the two components coincide. -/
def next (a : Nat) : Nat × Nat :=
  let x0 := a % 2 ^ 32
  let x1 := x0 ^^^ ((x0 <<< 13) % 2 ^ 32)
  let x2 := x1 ^^^ (x1 >>> 17)
  let x3 := x2 ^^^ ((x2 <<< 5) % 2 ^ 32)
  (x3, x3)

/-- State of the generator after `n` calls to `next`, seeded with `seed`
(the constructor stores the `uint32_t` seed directly into the state). -/
def stateAfter (seed : Nat) : Nat → Nat
  | 0 => seed % 2 ^ 32
  | n + 1 => (next (stateAfter seed n)).2

/-- The k-th raw output of an instance seeded with `seed` (output of the
(k+1)-st call, since each call returns the new state). -/
def stream (seed : Nat) (k : Nat) : Nat := stateAfter seed (k + 1)

end Xorshift32

namespace Splitmix64

/-- Embedding of `Splitmix64::next` (src/main.cpp lines 532-537) in 64-bit
unsigned arithmetic.  Returns (output, new state). -/
def next (x : Nat) : Nat × Nat :=
  let x1 := (x + 0x9e3779b97f4a7c15) % 2 ^ 64
  let z1 := ((x1 ^^^ (x1 >>> 30)) * 0xbf58476d1ce4e5b9) % 2 ^ 64
  let z2 := ((z1 ^^^ (z1 >>> 27)) * 0x94d049bb133111eb) % 2 ^ 64
  (z2 ^^^ (z2 >>> 31), x1)

end Splitmix64

namespace Mulberry32

/-- Embedding of `Mulberry32::next` (src/main.cpp lines 557-562).  The state
`x` is a `uint64_t`; the increment happens in 64-bit arithmetic, each
assignment to the `uint32_t` local `z` truncates to 32 bits, and the
right-hand sides mixing `z` with `UL`-suffixed constants are evaluated in
64-bit arithmetic before that truncation.  Returns (output, new state). -/
def next (x : Nat) : Nat × Nat :=
  let x1 := (x + 0x6D2B79F5) % 2 ^ 64
  let z0 := x1 % 2 ^ 32
  let z1 := ((z0 ^^^ (z0 >>> 15)) * (z0 ||| 1)) % 2 ^ 32
  let z2 := (z1 ^^^ ((z1 + (z1 ^^^ (z1 >>> 7)) * (z1 ||| 61)) % 2 ^ 64)) % 2 ^ 32
  (z2 ^^^ (z2 >>> 14), x1)

end Mulberry32

/-- Run a single-word-state generator for `n` steps from state `s`,
collecting the outputs in order. -/
def runGen (next : Nat → Nat × Nat) : Nat → Nat → List Nat
  | _, 0 => []
  | s, n + 1 => (next s).1 :: runGen next (next s).2 n

/-- Output sequence of a `Xorshift32` instance constructed with `seed`:
the first `n` values returned by `next()`. -/
def Xorshift32.run (seed n : Nat) : List Nat :=
  runGen Xorshift32.next (seed % 2 ^ 32) n

/-- Output sequence of a `Splitmix64` instance constructed with `seed`. -/
def Splitmix64.run (seed n : Nat) : List Nat :=
  runGen Splitmix64.next (seed % 2 ^ 64) n

/-- Output sequence of a `Mulberry32` instance constructed with `seed`
(the constructor stores the `uint64_t` seed into the widened state). -/
def Mulberry32.run (seed n : Nat) : List Nat :=
  runGen Mulberry32.next (seed % 2 ^ 64) n

namespace Lemire

/-- The rejection threshold `-range % range` of `Lemire::nextBounded`
(src/main.cpp line 586): unary minus of a `uint32_t` wraps to
`(2^32 - range) mod 2^32`, then reduce modulo `range`. -/
def threshold (range : Nat) : Nat := ((2 ^ 32 - range) % 2 ^ 32) % range

/-- The redraw loop of `Lemire::nextBounded` (src/main.cpp lines 587-591):
`while (leftover < threshold) { random32bit = nextRaw32(); multiresult =
random32bit * range; leftover = (uint32_t) multiresult; }` followed by
`return multiresult >> 32`.  `m` is the current 64-bit `multiresult`,
`k` the index of the next unread draw of the backing stream `f`, and
`fuel` bounds the number of redraws.  Returns (result, next stream index). -/
def loop (range t : Nat) (f : Nat → Nat) : Nat → Nat → Nat → Option (Nat × Nat)
  | 0, m, k =>
      if t ≤ m % 2 ^ 32 then some (m / 2 ^ 32, k) else none
  | fuel + 1, m, k =>
      if t ≤ m % 2 ^ 32 then some (m / 2 ^ 32, k)
      else loop range t f fuel ((f k % 2 ^ 32) * range) (k + 1)

/-- Embedding of `Lemire::nextBounded` (src/main.cpp lines 577-594): draw
`random32bit`, form the 64-bit product `multiresult = random32bit * range`,
take its low half `leftover`; accept `multiresult >> 32` unless
`leftover < range`, in which case compute the threshold and redraw while
`leftover < threshold`. -/
def nextBounded (range : Nat) (f : Nat → Nat) (k fuel : Nat) : Option (Nat × Nat) :=
  if (f k % 2 ^ 32) * range % 2 ^ 32 < range then
    loop range (threshold range) f fuel ((f k % 2 ^ 32) * range) (k + 1)
  else
    some ((f k % 2 ^ 32) * range / 2 ^ 32, k + 1)

/-- The first `n` values of `nextBounded()` driven from stream position `k`,
each call given `fuel` redraws; `none` if any call exhausts its fuel. -/
def seq (range : Nat) (f : Nat → Nat) (fuel : Nat) : Nat → Nat → Option (List Nat)
  | _, 0 => some []
  | k, n + 1 =>
    match nextBounded range f k fuel with
    | none => none
    | some (v, kNext) =>
      match seq range f fuel kNext n with
      | none => none
      | some vs => some (v :: vs)

end Lemire

namespace LemireOneil

/-- The rejection threshold of `LemireOneil::nextBounded` (src/main.cpp
lines 614-619): `t = -range; if (t >= range) { t -= range; if (t >= range)
t %= range; }` in 32-bit unsigned arithmetic. -/
def threshold (range : Nat) : Nat :=
  let t0 := (2 ^ 32 - range) % 2 ^ 32
  if range ≤ t0 then
    let t1 := t0 - range
    if range ≤ t1 then t1 % range else t1
  else t0

/-- The redraw loop of `LemireOneil::nextBounded` (src/main.cpp lines
620-624): `while (l < t) { x = nextRaw32(); m = (uint64_t)x *
(uint64_t)range; l = (uint32_t)m; }` followed by `return m >> 32`. -/
def loop (range t : Nat) (f : Nat → Nat) : Nat → Nat → Nat → Option (Nat × Nat)
  | 0, m, k =>
      if t ≤ m % 2 ^ 32 then some (m / 2 ^ 32, k) else none
  | fuel + 1, m, k =>
      if t ≤ m % 2 ^ 32 then some (m / 2 ^ 32, k)
      else loop range t f fuel ((f k % 2 ^ 32) * range) (k + 1)

/-- Embedding of `LemireOneil::nextBounded` (src/main.cpp lines 609-627):
same accept/reject structure as the plain Lemire variant, with the
threshold computed by conditional subtraction before falling back to the
modulo. -/
def nextBounded (range : Nat) (f : Nat → Nat) (k fuel : Nat) : Option (Nat × Nat) :=
  if (f k % 2 ^ 32) * range % 2 ^ 32 < range then
    loop range (threshold range) f fuel ((f k % 2 ^ 32) * range) (k + 1)
  else
    some ((f k % 2 ^ 32) * range / 2 ^ 32, k + 1)

/-- The first `n` values of the O'Neil-variant `nextBounded()`. -/
def seq (range : Nat) (f : Nat → Nat) (fuel : Nat) : Nat → Nat → Option (List Nat)
  | _, 0 => some []
  | k, n + 1 =>
    match nextBounded range f k fuel with
    | none => none
    | some (v, kNext) =>
      match seq range f fuel kNext n with
      | none => none
      | some vs => some (v :: vs)

end LemireOneil

/-! ### Equivalence of the two bounded-sampler variants -/

/-- The O'Neil conditional-subtraction threshold agrees with the plain
`-range % range` threshold for every 32-bit `range` (including 0, where the
code path that would divide by zero is unreachable). -/
theorem threshold_agree (range : Nat) :
    LemireOneil.threshold range = Lemire.threshold range := by
  unfold LemireOneil.threshold Lemire.threshold
  set t0 := (2 ^ 32 - range) % 2 ^ 32 with ht0
  by_cases h1 : range ≤ t0
  · rw [if_pos h1]
    by_cases h2 : range ≤ t0 - range
    · rw [if_pos h2]
      exact (Nat.mod_eq_sub_mod h1).symm
    · rw [if_neg h2, Nat.mod_eq_sub_mod h1, Nat.mod_eq_of_lt (by omega)]
  · rw [if_neg h1, Nat.mod_eq_of_lt (by omega)]

/-- The two redraw loops are the same function of the threshold. -/
theorem loop_agree (range t : Nat) (f : Nat → Nat) :
    ∀ fuel m k, LemireOneil.loop range t f fuel m k = Lemire.loop range t f fuel m k := by
  intro fuel
  induction fuel with
  | zero => intro m k; rfl
  | succ fuel ih =>
    intro m k
    rw [LemireOneil.loop, Lemire.loop, ih]

/-- One call of `LemireOneil::nextBounded` returns exactly what one call of
`Lemire::nextBounded` returns, and consumes the same draws. -/
theorem nextBounded_agree (range : Nat) (f : Nat → Nat) (k fuel : Nat) :
    LemireOneil.nextBounded range f k fuel = Lemire.nextBounded range f k fuel := by
  rw [LemireOneil.nextBounded, Lemire.nextBounded, threshold_agree, loop_agree]

/-- The whole output sequences of the two variants coincide. -/
theorem seq_agree (range : Nat) (f : Nat → Nat) (fuel : Nat) :
    ∀ n k, LemireOneil.seq range f fuel k n = Lemire.seq range f fuel k n := by
  intro n
  induction n with
  | zero => intro k; rfl
  | succ n ih =>
    intro k
    rw [LemireOneil.seq, Lemire.seq, nextBounded_agree]
    cases Lemire.nextBounded range f k fuel with
    | none => rfl
    | some p =>
      obtain ⟨v, kNext⟩ := p
      simp only [ih]

/-! ### What an accepted draw returns -/

/-- Invariant of the Lemire redraw loop: whenever the loop's `multiresult`
argument is the product of the most recently consumed draw with `range`, an
accepted result is `floor(x * range / 2^32)` for the draw `x` read just
before position `kr`, and at least one draw has been consumed. -/
theorem Lemire.loop_spec (range t : Nat) (f : Nat → Nat) :
    ∀ fuel m k v kr, m = (f (k - 1) % 2 ^ 32) * range → 1 ≤ k →
      Lemire.loop range t f fuel m k = some (v, kr) →
      v = (f (kr - 1) % 2 ^ 32) * range / 2 ^ 32 ∧ 1 ≤ kr := by
  intro fuel
  induction fuel with
  | zero =>
    intro m k v kr hm hk h
    rw [Lemire.loop] at h
    split at h
    · simp only [Option.some.injEq, Prod.mk.injEq] at h
      obtain ⟨hv, hkr⟩ := h
      subst hkr
      exact ⟨by rw [← hv, hm], hk⟩
    · exact absurd h (by simp)
  | succ fuel ih =>
    intro m k v kr hm hk h
    rw [Lemire.loop] at h
    split at h
    · simp only [Option.some.injEq, Prod.mk.injEq] at h
      obtain ⟨hv, hkr⟩ := h
      subst hkr
      exact ⟨by rw [← hv, hm], hk⟩
    · exact ih _ (k + 1) v kr (by simp) (by omega) h

/-- An accepted call of `Lemire::nextBounded` returns
`floor(x * range / 2^32)` where `x` is the last draw it consumed, and it
consumes at least the first draw. -/
theorem Lemire.nextBounded_spec (range : Nat) (f : Nat → Nat) (k fuel v kr : Nat)
    (h : Lemire.nextBounded range f k fuel = some (v, kr)) :
    v = (f (kr - 1) % 2 ^ 32) * range / 2 ^ 32 ∧ 1 ≤ kr := by
  rw [Lemire.nextBounded] at h
  split at h
  · exact Lemire.loop_spec range (Lemire.threshold range) f fuel _ (k + 1) v kr
      (by simp) (by omega) h
  · simp only [Option.some.injEq, Prod.mk.injEq] at h
    obtain ⟨hv, hkr⟩ := h
    subst hkr
    exact ⟨by rw [← hv]; simp, by omega⟩

/-- Any accepted result of `Lemire::nextBounded` is below `range`. -/
theorem Lemire.nextBounded_lt (range : Nat) (f : Nat → Nat) (k fuel v kr : Nat)
    (hr : 1 ≤ range)
    (h : Lemire.nextBounded range f k fuel = some (v, kr)) : v < range := by
  obtain ⟨hv, -⟩ := Lemire.nextBounded_spec range f k fuel v kr h
  have hx : f (kr - 1) % 2 ^ 32 < 2 ^ 32 := Nat.mod_lt _ (by norm_num)
  rw [hv, Nat.div_lt_iff_lt_mul (by norm_num : 0 < 2 ^ 32)]
  calc (f (kr - 1) % 2 ^ 32) * range
      < 2 ^ 32 * range := by
        exact Nat.mul_lt_mul_of_lt_of_le hx (Nat.le_refl range) hr
    _ = range * 2 ^ 32 := Nat.mul_comm _ _

/-- C1: for every range with `1 ≤ range ≤ 2^32 − 1` and the same backing
draw stream, the output sequences of `Lemire::nextBounded` and
`LemireOneil::nextBounded` are bit-identical for every number of
consecutive draws (each call also consumes the same number of raw draws,
so the two samplers stay in lockstep). -/
theorem lemire_oneil_bit_identical (range : Nat) (f : Nat → Nat)
    (fuel k n : Nat) (h1 : 1 ≤ range) (h2 : range ≤ 2 ^ 32 - 1) :
    Lemire.seq range f fuel k n = LemireOneil.seq range f fuel k n :=
  (seq_agree range f fuel n k).symm

/-- Witness for C1: range 1000, xorshift32 backing generator seeded with 1,
8 consecutive draws. -/
theorem lemire_oneil_bit_identical_witness :
    1 ≤ 1000 ∧ 1000 ≤ 2 ^ 32 - 1 ∧
    Lemire.seq 1000 (Xorshift32.stream 1) 10 0 8
      = LemireOneil.seq 1000 (Xorshift32.stream 1) 10 0 8 :=
  ⟨by decide, by norm_num,
    lemire_oneil_bit_identical 1000 (Xorshift32.stream 1) 10 0 8
      (by decide) (by norm_num)⟩

/-- C2: every value returned by `nextBounded` of either variant satisfies
`0 ≤ value < range` (the lower bound holds by the `Nat` embedding of
`uint32_t`). -/
theorem nextBounded_in_range (range : Nat) (f : Nat → Nat) (k fuel v kr : Nat)
    (h1 : 1 ≤ range) (h2 : range ≤ 2 ^ 32 - 1) :
    (Lemire.nextBounded range f k fuel = some (v, kr) → v < range) ∧
    (LemireOneil.nextBounded range f k fuel = some (v, kr) → v < range) := by
  constructor
  · exact fun h => Lemire.nextBounded_lt range f k fuel v kr h1 h
  · intro h
    rw [nextBounded_agree] at h
    exact Lemire.nextBounded_lt range f k fuel v kr h1 h

/-- Witness for C2: range 1000, a constant backing stream returning 5; the
first draw is accepted and both variants return 0 < 1000. -/
theorem nextBounded_in_range_witness :
    1 ≤ 1000 ∧ 1000 ≤ 2 ^ 32 - 1 ∧
    Lemire.nextBounded 1000 (fun _ => 5) 0 0 = some (0, 1) ∧
    (0 : Nat) < 1000 :=
  ⟨by decide, by norm_num, by decide,
    (nextBounded_in_range 1000 (fun _ => 5) 0 0 0 1 (by decide)
      (by norm_num)).1 (by decide)⟩

/-- C4: for `1 ≤ range ≤ 2^32 − 1`, the O'Neil conditional-subtraction
threshold and Lemire's `-range % range` (computed with 32-bit wraparound)
both equal `(2^32 − range) mod range`. -/
theorem thresholds_eq_closed_form (range : Nat)
    (h1 : 1 ≤ range) (h2 : range ≤ 2 ^ 32 - 1) :
    LemireOneil.threshold range = (2 ^ 32 - range) % range ∧
    Lemire.threshold range = (2 ^ 32 - range) % range := by
  have hL : Lemire.threshold range = (2 ^ 32 - range) % range := by
    unfold Lemire.threshold
    rw [Nat.mod_eq_of_lt (show 2 ^ 32 - range < 2 ^ 32 by omega)]
  exact ⟨by rw [threshold_agree, hL], hL⟩

/-- Witness for C4 at range 1000: both thresholds are 296. -/
theorem thresholds_eq_closed_form_witness :
    1 ≤ 1000 ∧ 1000 ≤ 2 ^ 32 - 1 ∧
    LemireOneil.threshold 1000 = (2 ^ 32 - 1000) % 1000 ∧
    Lemire.threshold 1000 = (2 ^ 32 - 1000) % 1000 :=
  ⟨by decide, by norm_num,
    thresholds_eq_closed_form 1000 (by decide) (by norm_num)⟩

/-- C9: an accepted call of `Lemire::nextBounded` returns
`floor(x * range / 2^32)` where `x` is the final (accepted) raw 32-bit
draw — the one consumed just before the final stream position `kr` — and
the 64-bit product `x * range` does not overflow (it is below `2^64`). -/
theorem lemire_result_formula (range : Nat) (f : Nat → Nat)
    (k fuel v kr : Nat) (h1 : 1 ≤ range) (h2 : range ≤ 2 ^ 32 - 1)
    (h : Lemire.nextBounded range f k fuel = some (v, kr)) :
    v = (f (kr - 1) % 2 ^ 32) * range / 2 ^ 32 ∧
    (f (kr - 1) % 2 ^ 32) * range < 2 ^ 64 := by
  obtain ⟨hv, -⟩ := Lemire.nextBounded_spec range f k fuel v kr h
  refine ⟨hv, ?_⟩
  have hx : f (kr - 1) % 2 ^ 32 < 2 ^ 32 := Nat.mod_lt _ (by norm_num)
  calc (f (kr - 1) % 2 ^ 32) * range
      ≤ (2 ^ 32 - 1) * (2 ^ 32 - 1) := Nat.mul_le_mul (by omega) h2
    _ < 2 ^ 64 := by norm_num

/-- Witness for C9: range 1000, constant stream of 5, accepted first draw:
the result is `5 * 1000 / 2^32 = 0` and the product 5000 is below `2^64`. -/
theorem lemire_result_formula_witness :
    1 ≤ 1000 ∧ 1000 ≤ 2 ^ 32 - 1 ∧
    Lemire.nextBounded 1000 (fun _ => 5) 0 0 = some (0, 1) ∧
    ((0 : Nat) = ((fun _ => 5) (1 - 1) % 2 ^ 32) * 1000 / 2 ^ 32 ∧
      ((fun _ => 5) (1 - 1) % 2 ^ 32) * 1000 < 2 ^ 64) :=
  ⟨by decide, by norm_num, by decide,
    lemire_result_formula 1000 (fun _ => 5) 0 0 0 1 (by decide) (by norm_num)
      (by decide)⟩

/-! ### Degenerate ranges -/

/-- C3 is violated by the code: with `range = 0`, `nextBounded` of either
variant silently returns the value 0 after consuming one raw draw — the
`leftover < range` branch is unreachable, so no abort and no error return
happens (nor does the `BoundedInt32` constructor validate `range`; only
the `assert(x < this->range)` in `BoundedInt32::print`, outside the
sampler and compiled away under `NDEBUG`, can catch the value later). -/
theorem range_zero_silently_returns (f : Nat → Nat) (k fuel : Nat) :
    Lemire.nextBounded 0 f k fuel = some (0, k + 1) ∧
    LemireOneil.nextBounded 0 f k fuel = some (0, k + 1) := by
  have hL : Lemire.nextBounded 0 f k fuel = some (0, k + 1) := by
    rw [Lemire.nextBounded]
    simp
  exact ⟨hL, by rw [nextBounded_agree]; exact hL⟩

/-- C6: with `range = 1`, every call of either variant returns 0 after a
single raw draw: the result holds for every fuel budget, including zero
redraws, so no rejection iteration ever runs, and the threshold reduction
is a modulo by 1, not a division by zero. -/
theorem range_one_immediate_zero (f : Nat → Nat) (k fuel : Nat) :
    Lemire.nextBounded 1 f k fuel = some (0, k + 1) ∧
    LemireOneil.nextBounded 1 f k fuel = some (0, k + 1) := by
  have hx : f k % 2 ^ 32 < 2 ^ 32 := Nat.mod_lt _ (by norm_num)
  have hL : Lemire.nextBounded 1 f k fuel = some (0, k + 1) := by
    rw [Lemire.nextBounded, Nat.mul_one, Nat.mod_eq_of_lt hx]
    by_cases h0 : f k % 2 ^ 32 = 0
    · rw [h0, if_pos (by norm_num)]
      have ht : Lemire.threshold 1 = 0 := by unfold Lemire.threshold; omega
      rw [ht]
      cases fuel with
      | zero => rw [Lemire.loop]; simp
      | succ fuel => rw [Lemire.loop]; simp
    · rw [if_neg (by omega), Nat.div_eq_of_lt hx]
  exact ⟨hL, by rw [nextBounded_agree]; exact hL⟩

/-! ### Generator step functions -/

/-- C5: the xorshift32 generator seeded with 1 returns `0x00042021` from
its first `next()` call, and every call returns exactly the state freshly
produced by the step rule `a^=a<<13; a^=a>>17; a^=a<<5` in 32-bit unsigned
arithmetic (the two components of `next` — returned value and stored
state — always coincide). -/
theorem xorshift32_first_output :
    (Xorshift32.next 1).1 = 0x00042021 ∧
    ∀ a : Nat, (Xorshift32.next a).1 = (Xorshift32.next a).2 :=
  ⟨by decide, fun _ => rfl⟩

/-- The outputs of a run are a pure function of the seed and the call
index: the i-th output of `Xorshift32` is the state after `i + 1` steps. -/
theorem runGen_xorshift32_closed (seed : Nat) :
    ∀ n j, runGen Xorshift32.next (Xorshift32.stateAfter seed j) n
      = (List.range n).map (fun i => Xorshift32.stateAfter seed (j + i + 1)) := by
  intro n
  induction n with
  | zero => intro j; rfl
  | succ n ih =>
    intro j
    rw [runGen, List.range_succ_eq_map, List.map_cons, List.map_map]
    have h1 : (Xorshift32.next (Xorshift32.stateAfter seed j)).1
        = Xorshift32.stateAfter seed (j + 1) := rfl
    have h2 : (Xorshift32.next (Xorshift32.stateAfter seed j)).2
        = Xorshift32.stateAfter seed (j + 1) := rfl
    rw [h1, h2, ih (j + 1)]
    refine congrArg _ (List.map_congr_left fun i _ => ?_)
    simp only [Function.comp_apply]
    congr 1
    omega

/-- C8: every generator's `next()` is a deterministic, pure function of the
initial seed and the call count: instances of the cited families
(`Xorshift32`, `Splitmix64`) constructed with equal seeds produce identical
output sequences over any number of calls, and the xorshift32 sequence is
literally the function `i ↦ state after i+1 steps` of the seed and index. -/
theorem generators_deterministic (seed1 seed2 n : Nat) (h : seed1 = seed2) :
    Xorshift32.run seed1 n = Xorshift32.run seed2 n ∧
    Splitmix64.run seed1 n = Splitmix64.run seed2 n ∧
    Xorshift32.run seed1 n = (List.range n).map (Xorshift32.stream seed1) := by
  subst h
  refine ⟨rfl, rfl, ?_⟩
  rw [Xorshift32.run,
    show seed1 % 2 ^ 32 = Xorshift32.stateAfter seed1 0 from rfl,
    runGen_xorshift32_closed seed1 n 0]
  congr 1
  funext i
  rw [Xorshift32.stream]
  congr 1
  omega

/-- Witness for C8: two instances seeded with 42 over 4 calls. -/
theorem generators_deterministic_witness :
    (42 : Nat) = 42 ∧
    (Xorshift32.run 42 4 = Xorshift32.run 42 4 ∧
     Splitmix64.run 42 4 = Splitmix64.run 42 4 ∧
     Xorshift32.run 42 4 = (List.range 4).map (Xorshift32.stream 42)) :=
  ⟨rfl, generators_deterministic 42 42 4 rfl⟩

/-! ### Mulberry32's widened state -/

/-- 2^32 divides 2^64, so reducing modulo 2^64 first does not change a
residue modulo 2^32. -/
theorem pow32_dvd_pow64 : (2 ^ 32 : Nat) ∣ 2 ^ 64 := pow_dvd_pow 2 (by norm_num)

/-- One Mulberry32 step preserves congruence of states modulo 2^32 and
produces equal outputs from congruent states: the output is a function of
the low 32 bits of the incremented state only. -/
theorem mulberry32_next_congr (x1 x2 : Nat) (h : x1 % 2 ^ 32 = x2 % 2 ^ 32) :
    (Mulberry32.next x1).1 = (Mulberry32.next x2).1 ∧
    (Mulberry32.next x1).2 % 2 ^ 32 = (Mulberry32.next x2).2 % 2 ^ 32 := by
  have key : (x1 + 0x6D2B79F5) % 2 ^ 64 % 2 ^ 32
      = (x2 + 0x6D2B79F5) % 2 ^ 64 % 2 ^ 32 := by
    rw [Nat.mod_mod_of_dvd _ pow32_dvd_pow64, Nat.mod_mod_of_dvd _ pow32_dvd_pow64]
    omega
  constructor
  · simp only [Mulberry32.next]
    rw [key]
  · simp only [Mulberry32.next]
    exact key

/-- Runs of the Mulberry32 step from states congruent modulo 2^32 produce
identical output lists. -/
theorem mulberry32_runGen_congr :
    ∀ n x1 x2, x1 % 2 ^ 32 = x2 % 2 ^ 32 →
      runGen Mulberry32.next x1 n = runGen Mulberry32.next x2 n := by
  intro n
  induction n with
  | zero => intro x1 x2 _; rfl
  | succ n ih =>
    intro x1 x2 h
    obtain ⟨h1, h2⟩ := mulberry32_next_congr x1 x2 h
    rw [runGen, runGen, h1, ih _ _ h2]

/-- C10: two Mulberry32 instances whose 64-bit seeds are congruent modulo
2^32 produce identical output sequences for every number of `next()`
calls: the state is stored widened to 64 bits and incremented in 64-bit
arithmetic, but each output depends only on the low 32 bits of the state,
which evolve independently of the high bits. -/
theorem mulberry32_seed_congruence (seed1 seed2 n : Nat)
    (h : seed1 % 2 ^ 32 = seed2 % 2 ^ 32) :
    Mulberry32.run seed1 n = Mulberry32.run seed2 n := by
  rw [Mulberry32.run, Mulberry32.run]
  apply mulberry32_runGen_congr
  rw [Nat.mod_mod_of_dvd _ pow32_dvd_pow64, Nat.mod_mod_of_dvd _ pow32_dvd_pow64]
  exact h

/-- Witness for C10: seeds 5 and 2^32 + 5, which differ in the high bits
only, give the same first three outputs. -/
theorem mulberry32_seed_congruence_witness :
    (2 ^ 32 + 5) % 2 ^ 32 = 5 % 2 ^ 32 ∧
    Mulberry32.run (2 ^ 32 + 5) 3 = Mulberry32.run 5 3 :=
  ⟨by decide, mulberry32_seed_congruence (2 ^ 32 + 5) 5 3 (by decide)⟩
